import Mathlib

/-!
Verification of the live-query-collection core (`src/packages/db/src/query/live-query-collection.ts`)
and the structural-hash utility against the natural-language specification.

The TypeScript source is shallowly embedded: pure helpers become Lean functions,
stateful driver code becomes explicit state passing, JS numbers used as counters
become `Nat`/`Int`. Components of the repository that are not part of the given
source tree (the D2 dataflow graph, the top-K operator, the IR compiler, the
sorted-index protocol of the source collection) are modelled from the spec; each
such definition carries a doc comment starting with `Modelled from the spec:`.
-/

namespace LiveQuery

/-- Change messages are the external update unit (spec section 3; `ChangeMessage` in the
source): an insert, an update carrying the previous value, or a delete. -/
inductive ChangeMessage (K V : Type) where
  | insert (key : K) (value : V)
  | update (key : K) (previousValue : V) (value : V)
  | delete (key : K) (value : V)
deriving DecidableEq, Repr

namespace ChangeMessage

/-- The key of a change message. -/
def key : ChangeMessage K V → K
  | .insert k _ => k
  | .update k _ _ => k
  | .delete k _ => k

/-- The (new) value of a change message (`change.value` in the source). -/
def value : ChangeMessage K V → V
  | .insert _ v => v
  | .update _ _ v => v
  | .delete _ v => v

end ChangeMessage

/-! ## Boundary conversion to multiset tuples (`sendChangesToInput`, source lines 761-780) -/

/-- Embedding of `sendChangesToInput`: each change becomes signed multiset tuples
`((key, value), mult)`; the key is computed by `getKey` on the new value, inserts get
multiplicity `+1`, deletes `-1`, and updates are split into a `-1` tuple for the
previous value followed by a `+1` tuple for the new value. -/
def sendChangesToInput (getKey : V → K) (changes : List (ChangeMessage K0 V)) :
    List ((K × V) × Int) :=
  changes.flatMap fun change =>
    match change with
    | .insert _ v => [((getKey v, v), 1)]
    | .update _ pv v => [((getKey v, pv), -1), ((getKey v, v), 1)]
    | .delete _ v => [((getKey v, v), -1)]

/-! ## The materializer (`sync` output callback, source lines 237-314) -/

/-- Per-key accumulator of the materializer (the record built by the `reduce` at
source lines 247-270). -/
structure KeyChanges (V : Type) where
  deletes : Nat
  inserts : Nat
  value : V
  orderByIndex : Option String
deriving DecidableEq, Repr

/-- The write emitted by the materializer for one key, or the invariant-violation error
(`throw new Error` at source line 308). -/
inductive WriteOp (V : Type) where
  | insert (v : V)
  | update (v : V)
  | delete (v : V)
  | error
deriving DecidableEq, Repr

/-- Embedding of the `reduce` at source lines 247-270: folds a batch of multiset tuples
into per-key net counts. A tuple with negative multiplicity adds its absolute value to
`deletes`; a positive multiplicity adds to `inserts` and overwrites `value` and
`orderByIndex`; a zero multiplicity only creates the entry. The association list keeps
first-insertion order, mirroring the JS `Map`. -/
def accumulateMessages [DecidableEq K] :
    List ((K × (V × Option String)) × Int) → List (K × KeyChanges V)
  | [] => []
  | ((k, (v, idx)), mult) :: rest =>
    let step := fun (acc : List (K × KeyChanges V)) =>
      let changes := ((acc.lookup k).getD ⟨0, 0, v, idx⟩)
      let changes :=
        if mult < 0 then { changes with deletes := changes.deletes + mult.natAbs }
        else if mult > 0 then
          { changes with inserts := changes.inserts + mult.toNat, value := v,
                         orderByIndex := idx }
        else changes
      if (acc.lookup k).isSome then
        acc.map fun p => if p.1 = k then (k, changes) else p
      else
        acc ++ [(k, changes)]
    -- process this tuple first, then the rest, like the left fold of `reduce`
    accumulateMessagesAux (step []) rest
where
  /-- Left fold over the remaining tuples, threading the accumulator. -/
  accumulateMessagesAux (acc : List (K × KeyChanges V)) :
      List ((K × (V × Option String)) × Int) → List (K × KeyChanges V)
  | [] => acc
  | ((k, (v, idx)), mult) :: rest =>
    let changes := ((acc.lookup k).getD ⟨0, 0, v, idx⟩)
    let changes :=
      if mult < 0 then { changes with deletes := changes.deletes + mult.natAbs }
      else if mult > 0 then
        { changes with inserts := changes.inserts + mult.toNat, value := v,
                       orderByIndex := idx }
      else changes
    let acc :=
      if (acc.lookup k).isSome then
        acc.map fun p => if p.1 = k then (k, changes) else p
      else
        acc ++ [(k, changes)]
    accumulateMessagesAux acc rest

/-- Embedding of the per-key decision of the materializer (source lines 283-311).
`hasKey` is `theCollection.has(rawKey)`. The branch structure follows the source: an
insert when `inserts` is truthy and `deletes === 0`; an update when `inserts > deletes`
or `inserts === deletes` with the key present; a delete when `deletes > 0`; otherwise
the fatal invariant-violation error. -/
def materializeDecision (hasKey : Bool) (c : KeyChanges V) : WriteOp V :=
  if c.inserts ≠ 0 ∧ c.deletes = 0 then .insert c.value
  else if c.inserts > c.deletes ∨ (c.inserts = c.deletes ∧ hasKey) then .update c.value
  else if c.deletes > 0 then .delete c.value
  else .error

/-- The decision function exactly as the claim (and spec section 4.H) states it:
`inserts==1, deletes==0` and key absent gives an insert; `inserts==deletes` with the key
present gives an update; `inserts>deletes` gives an update when present, else an insert;
`deletes>0, inserts==0` gives a delete; any other combination is the invariant-violation
error. Written from the spec wording, to be compared with `materializeDecision`. -/
def claimedMaterializeDecision (present : Bool) (inserts deletes : Nat) (v : V) :
    WriteOp V :=
  if inserts = 1 ∧ deletes = 0 ∧ ¬present then .insert v
  else if inserts = deletes ∧ present then .update v
  else if inserts > deletes then (if present then .update v else .insert v)
  else if deletes > 0 ∧ inserts = 0 then .delete v
  else .error

/-- The corrected per-key decision, stated from the source behaviour: any positive
`inserts` with zero `deletes` is written as an insert regardless of presence; an update
is written when `inserts > deletes > 0`, or when `inserts == deletes > 0` and the key is
present, or when `inserts == deletes == 0` and the key is present; a delete is written
when `inserts == deletes > 0` with the key absent or when `inserts < deletes`; the fatal
error is raised only when `inserts == deletes == 0` and the key is absent. -/
def amendedMaterializeDecision (present : Bool) (c : KeyChanges V) : WriteOp V :=
  if c.inserts > 0 ∧ c.deletes = 0 then .insert c.value
  else if c.deletes > 0 ∧ c.inserts > c.deletes then .update c.value
  else if c.inserts = c.deletes ∧ c.inserts > 0 ∧ present then .update c.value
  else if c.inserts = c.deletes ∧ c.inserts > 0 ∧ ¬present then .delete c.value
  else if c.inserts < c.deletes then .delete c.value
  else if c.inserts = 0 ∧ c.deletes = 0 ∧ present then .update c.value
  else .error

/-- C2 counterexample: with net counts `inserts = 1`, `deletes = 0` and the key already
present in the result collection, the materializer writes an insert, while the claim
mandates an update (its `inserts > deletes` clause applies to present keys). -/
theorem claimC2_counterexample :
    materializeDecision true (V := Nat) ⟨0, 1, 7, none⟩ = .insert 7 ∧
    claimedMaterializeDecision true 1 0 (7 : Nat) = .update 7 ∧
    materializeDecision true (V := Nat) ⟨0, 1, 7, none⟩ ≠
      claimedMaterializeDecision true 1 0 (7 : Nat) := by
  refine ⟨by decide, by decide, by decide⟩

/-- C2 (amended): for every presence flag and accumulated per-key counts, the
materializer's decision equals the corrected case analysis described by
`amendedMaterializeDecision`. -/
theorem claimC2_materializer_cases (present : Bool) (c : KeyChanges V) :
    materializeDecision present c = amendedMaterializeDecision present c := by
  rcases c with ⟨d, i, v, idx⟩
  rcases present <;>
    simp only [materializeDecision, amendedMaterializeDecision, Bool.false_eq_true,
      Bool.true_eq_false, and_false, and_true, false_and, true_and, not_false_iff,
      not_true, or_false, false_or, if_false, if_true] <;>
    split_ifs <;> first | rfl | omega

/-! ## Lazy-matching mode masking (`sendVisibleChangesToPipeline`, source lines 374-401) -/

/-- Embedding of `sendVisibleChangesToPipeline`: when `loadedInitialState` is set the
changes are forwarded untouched (the pipeline has seen every key); otherwise, for keys
not in `sentKeys`, updates are rewritten to inserts and deletes are dropped, while
changes for already-sent keys pass through. -/
def sendVisibleChangesToPipeline [DecidableEq K]
    (changes : List (ChangeMessage K V)) (loadedInitialState : Bool)
    (sentKeys : List K) : List (ChangeMessage K V) :=
  if loadedInitialState then changes
  else
    changes.filterMap fun change =>
      if change.key ∈ sentKeys then some change
      else
        match change with
        | .update k _ v => some (.insert k v)
        | .delete _ _ => none
        | c => some c

/-- C6 counterexample: after `loadInitialState()` has been called
(`loadedInitialState = true`), an update for a key never sent passes through as an
update; the claim demands it be rewritten into an insert. -/
theorem claimC6_counterexample :
    sendVisibleChangesToPipeline (K := Nat) (V := Nat)
        [.update 1 10 20] true [] = [.update 1 10 20] ∧
    sendVisibleChangesToPipeline (K := Nat) (V := Nat)
        [.update 1 10 20] true [] ≠ [.insert 1 20] := by
  refine ⟨by decide, by decide⟩

/-- C6 (amended): masking applies before `loadInitialState()` has been called, not
after. While `loadedInitialState` is false, an update for a key outside `sentKeys` is
rewritten to an insert, a delete for such a key is dropped, inserts and changes for
already-sent keys pass through; once `loadedInitialState` is true every change passes
through unchanged. -/
theorem claimC6_lazy_masking [DecidableEq K] :
    (∀ (changes : List (ChangeMessage K V)) (s : List K),
        sendVisibleChangesToPipeline changes true s = changes) ∧
    (∀ (k : K) (pv v : V) (rest : List (ChangeMessage K V)) (s : List K),
        sendVisibleChangesToPipeline (.update k pv v :: rest) false s =
          (if k ∈ s then ChangeMessage.update k pv v else .insert k v) ::
            sendVisibleChangesToPipeline rest false s) ∧
    (∀ (k : K) (v : V) (rest : List (ChangeMessage K V)) (s : List K),
        sendVisibleChangesToPipeline (.delete k v :: rest) false s =
          (if k ∈ s then ChangeMessage.delete k v :: sendVisibleChangesToPipeline rest false s
           else sendVisibleChangesToPipeline rest false s)) ∧
    (∀ (k : K) (v : V) (rest : List (ChangeMessage K V)) (s : List K),
        sendVisibleChangesToPipeline (.insert k v :: rest) false s =
          .insert k v :: sendVisibleChangesToPipeline rest false s) := by
  refine ⟨fun changes s => rfl, fun k pv v rest s => ?_, fun k v rest s => ?_,
    fun k v rest s => ?_⟩
  · by_cases hk : k ∈ s <;>
      simp [sendVisibleChangesToPipeline, hk, ChangeMessage.key, List.filterMap_cons]
  · by_cases hk : k ∈ s <;>
      simp [sendVisibleChangesToPipeline, hk, ChangeMessage.key, List.filterMap_cons]
  · by_cases hk : k ∈ s <;>
      simp [sendVisibleChangesToPipeline, hk, ChangeMessage.key, List.filterMap_cons]

/-- C8: at the pipeline boundary an insert becomes exactly `((key, value), +1)`, a
delete exactly `((key, value), -1)`, and an update is split into
`((key, previousValue), -1)` followed by `((key, value), +1)`, with `key` computed by
the collection's `getKey` on the (new) value; the conversion is a homomorphism over
batches. -/
theorem claimC8_boundary_tuples (getKey : V → K) :
    (∀ (k0 : K0) (v : V) (rest : List (ChangeMessage K0 V)),
        sendChangesToInput getKey (.insert k0 v :: rest) =
          ((getKey v, v), 1) :: sendChangesToInput getKey rest) ∧
    (∀ (k0 : K0) (pv v : V) (rest : List (ChangeMessage K0 V)),
        sendChangesToInput getKey (.update k0 pv v :: rest) =
          ((getKey v, pv), -1) :: ((getKey v, v), 1) :: sendChangesToInput getKey rest) ∧
    (∀ (k0 : K0) (v : V) (rest : List (ChangeMessage K0 V)),
        sendChangesToInput getKey (.delete k0 v :: rest) =
          ((getKey v, v), -1) :: sendChangesToInput getKey rest) := by
  refine ⟨fun k0 v rest => rfl, fun k0 pv v rest => rfl, fun k0 v rest => rfl⟩

/-! ## Ordered-bounded subscription helpers (source lines 480-578 and 863-930) -/

/-- Embedding of `splitUpdates` (source lines 882-896): live updates are split into a
delete of the previous value followed by an insert of the new value; inserts and deletes
pass through. -/
def splitUpdates (changes : List (ChangeMessage K V)) : List (ChangeMessage K V) :=
  changes.flatMap fun change =>
    match change with
    | .update k pv v => [.delete k pv, .insert k v]
    | c => [c]

/-- Embedding of `filterChanges` (source lines 898-910). -/
def filterChanges (changes : List (ChangeMessage K V))
    (f : ChangeMessage K V → Bool) : List (ChangeMessage K V) :=
  changes.filter f

/-- Embedding of `filterChangesSmallerOrEqualToMax` (source lines 919-930): keeps a
change when no max value has been recorded yet (`!maxValue`, i.e. `biggest` is still
`undefined`), or when the comparator ranks its value smaller than or equal to the max. -/
def filterChangesSmallerOrEqualToMax (changes : List (ChangeMessage K V))
    (comparator : V → V → Int) (maxValue : Option V) : List (ChangeMessage K V) :=
  filterChanges changes fun change =>
    match maxValue with
    | none => true
    | some m => comparator change.value m ≤ 0

/-- The per-source tracking record `sentValuesInfo` (source lines 517-523): the keys
sent so far and the biggest value sent so far (`undefined` before anything was sent). -/
structure SentValuesInfo (K V : Type) where
  sentKeys : List K
  biggest : Option V
deriving DecidableEq, Repr

/-- The initial tracking state (source lines 520-523). -/
def initialSentValuesInfo : SentValuesInfo K V := ⟨[], none⟩

/-- Embedding of `trackSentValues` (source lines 863-879): yields the changes unchanged
while recording each key into `sentKeys` and raising `biggest` to any value the
comparator ranks above it. -/
def trackSentValues (changes : List (ChangeMessage K V))
    (comparator : V → V → Int) (tracker : SentValuesInfo K V) :
    List (ChangeMessage K V) × SentValuesInfo K V :=
  (changes,
    changes.foldl
      (fun t change =>
        { sentKeys := change.key :: t.sentKeys
          biggest :=
            match t.biggest with
            | none => some change.value
            | some b => if comparator b change.value < 0 then some change.value else some b })
      tracker)

/-- Embedding of the change list built by `loadNextItems` (source lines 538-550): take
the next `n` keys from the sorted index after the biggest sent value (obtained through
`valueExtractorForRawRow`; `undefined` when nothing was sent yet) and turn each into an
insert of the collection's current value for that key. -/
def loadNextItemsChanges (indexTake : Nat → Option B → List K) (get : K → V)
    (valueExtractorForRawRow : V → B) (n : Nat) (tracker : SentValuesInfo K V) :
    List (ChangeMessage K V) :=
  (indexTake n (tracker.biggest.map valueExtractorForRawRow)).map fun k =>
    .insert k (get k)

/-- Embedding of the change list forwarded by `sendChangesInRange` (source lines
556-569): split updates, then drop everything above the biggest sent value. -/
def sendChangesInRange (changes : List (ChangeMessage K V))
    (comparator : V → V → Int) (biggest : Option V) : List (ChangeMessage K V) :=
  filterChangesSmallerOrEqualToMax (splitUpdates changes) comparator biggest

/-- The initial load of the ordered subscription (source line 554):
`loadNextItems(offset + limit)` on the fresh tracker. -/
def initialOrderedLoad (indexTake : Nat → Option B → List K) (get : K → V)
    (valueExtractorForRawRow : V → B) (offset limit : Nat) :
    List (ChangeMessage K V) :=
  loadNextItemsChanges indexTake get valueExtractorForRawRow (offset + limit)
    initialSentValuesInfo

/-- C4: the ordered subscription first injects `index.take(offset + limit, null)` as
inserts; each subsequently delivered change batch is forwarded as: updates split into
delete-of-previous plus insert-of-new, then every change whose value the comparator
ranks above the biggest sent value dropped (changes ranking smaller or equal kept), and
nothing dropped while no value has been sent yet. -/
theorem claimC4_ordered_subscription (indexTake : Nat → Option B → List K)
    (get : K → V) (valueExtractorForRawRow : V → B)
    (comparator : V → V → Int) :
    (∀ offset limit : Nat,
        initialOrderedLoad indexTake get valueExtractorForRawRow offset limit =
          (indexTake (offset + limit) none).map fun k => .insert k (get k)) ∧
    (∀ (k : K) (pv v : V) (rest : List (ChangeMessage K V)),
        splitUpdates (.update k pv v :: rest) =
          .delete k pv :: .insert k v :: splitUpdates rest) ∧
    (∀ (k : K) (v : V) (rest : List (ChangeMessage K V)),
        splitUpdates (.insert k v :: rest) = .insert k v :: splitUpdates rest) ∧
    (∀ (k : K) (v : V) (rest : List (ChangeMessage K V)),
        splitUpdates (.delete k v :: rest) = .delete k v :: splitUpdates rest) ∧
    (∀ (changes : List (ChangeMessage K V)) (m : V),
        sendChangesInRange changes comparator (some m) =
          (splitUpdates changes).filter fun c => comparator c.value m ≤ 0) ∧
    (∀ changes : List (ChangeMessage K V),
        sendChangesInRange changes comparator none = splitUpdates changes) := by
  refine ⟨fun offset limit => rfl, fun k pv v rest => rfl, fun k v rest => rfl,
    fun k v rest => rfl, fun changes m => rfl, fun changes => ?_⟩
  simp [sendChangesInRange, filterChangesSmallerOrEqualToMax, filterChanges]

/-! ## Lazy-collection `loadInitialState` (source lines 464-476) -/

/-- Embedding of the `loadInitialState` callback: on the first call it flips the
`loadedInitialState` flag and sends the collection's current filtered state
(`currentStateAsChanges`, passed in as `currentState`) to the pipeline; on any later
call it returns without sending anything. The returned pair is the new flag and the
changes sent by this call. -/
def loadInitialState (currentState : List A) (loadedInitialState : Bool) :
    Bool × List A :=
  if loadedInitialState then (loadedInitialState, [])
  else (true, currentState)

/-- Calling `loadInitialState` a number of times in sequence, concatenating everything
sent to the pipeline across the calls. -/
def loadInitialStateN (n : Nat) (currentState : List A) (loadedInitialState : Bool) :
    Bool × List A :=
  match n with
  | 0 => (loadedInitialState, [])
  | m + 1 =>
    let first := loadInitialState currentState loadedInitialState
    let rest := loadInitialStateN m currentState first.1
    (rest.1, first.2 ++ rest.2)

/-- Helper for C9: once the flag is set, any number of further calls sends nothing. -/
theorem loadInitialStateN_loaded (n : Nat) (currentState : List A) :
    loadInitialStateN n currentState true = (true, []) := by
  induction n with
  | zero => rfl
  | succ m ih => simp [loadInitialStateN, loadInitialState, ih]

/-- C9: `loadInitialState` is idempotent. Starting from a fresh subscription
(`loadedInitialState = false`), any sequence of `n ≥ 1` calls sends the collection's
filtered current state to the pipeline exactly once — the total changes sent equal
`currentState` — and leaves the flag set; in particular it equals a single call. -/
theorem claimC9_loadInitialState_idempotent (n : Nat) (currentState : List A)
    (h : 1 ≤ n) :
    loadInitialStateN n currentState false = (true, currentState) ∧
    loadInitialStateN n currentState false = loadInitialStateN 1 currentState false := by
  obtain ⟨m, rfl⟩ : ∃ m, n = m + 1 := ⟨n - 1, by omega⟩
  constructor
  · simp [loadInitialStateN, loadInitialState, loadInitialStateN_loaded]
  · simp [loadInitialStateN, loadInitialState, loadInitialStateN_loaded]

/-- Witness for C9 at `n = 3` on a concrete two-change state. -/
theorem claimC9_witness :
    loadInitialStateN 3 [10, 20] false = (true, [10, 20]) ∧
    loadInitialStateN 3 [10, 20] false = loadInitialStateN 1 [10, 20] false :=
  claimC9_loadInitialState_idempotent 3 [10, 20] (by decide)

/-! ## Compile-time rejection of LIMIT/OFFSET without ORDER BY (source lines 196-232) -/

/-- The compile-error kinds of spec section 7. -/
inductive CompileError where
  | limitOffsetWithoutOrderBy
  | whereConversionFailed
deriving DecidableEq, Repr

/-- The slice of the query IR that decides compile-time rejection: whether an ORDER BY
clause is present, and the optional LIMIT and OFFSET. -/
structure QueryIRModel where
  hasOrderBy : Bool
  limit : Option Nat
  offset : Option Nat
deriving DecidableEq, Repr

/-- Modelled from the spec: `compileQuery` (the IR-to-graph compiler, which is not part
of the given source tree) rejects a query that specifies LIMIT or OFFSET without an
ORDER BY clause with a dedicated compile error, and otherwise produces a pipeline. -/
def compileQuery (q : QueryIRModel) : Except CompileError Unit :=
  if (q.limit.isSome ∨ q.offset.isSome) ∧ ¬q.hasOrderBy then
    .error .limitOffsetWithoutOrderBy
  else .ok ()

/-- Embedding of `compileBasePipeline` (source lines 196-217): builds the graph inputs
and invokes the compiler; any compiler error propagates. -/
def compileBasePipeline (q : QueryIRModel) : Except CompileError Unit :=
  compileQuery q

/-- Embedding of the construction-time behaviour of `liveQueryCollectionOptions`
(source lines 230-232): the base pipeline is compiled once, immediately and
synchronously, precisely so that errors surface before the returned config's `sync`
(subscription and graph runs) can ever start. -/
def liveQueryCollectionOptionsModel (q : QueryIRModel) : Except CompileError Unit :=
  compileBasePipeline q

/-- Observable engine steps of the sync lifecycle, used to state that nothing of the
subscription machinery runs when construction fails. -/
inductive EngineEvent where
  | subscribedToCollections
  | graphRan
deriving DecidableEq, Repr

/-- Modelled from the spec and source order: starting sync first requires the options
to have been constructed (source line 232 runs `compileBasePipeline()` during options
construction); only afterwards does `sync` subscribe to the source collections and run
the graph (source lines 354-623). -/
def startSyncModel (q : QueryIRModel) : Except CompileError (List EngineEvent) := do
  let _ ← liveQueryCollectionOptionsModel q
  pure [.subscribedToCollections, .graphRan]

/-- C7: a query with LIMIT or OFFSET but no ORDER BY is rejected with the dedicated
compile error, and the error surfaces from options construction itself — before any
subscription or graph run happens. -/
theorem claimC7_limit_offset_requires_orderby (q : QueryIRModel)
    (hlim : q.limit.isSome ∨ q.offset.isSome) (hord : q.hasOrderBy = false) :
    liveQueryCollectionOptionsModel q = .error .limitOffsetWithoutOrderBy ∧
    startSyncModel q = .error .limitOffsetWithoutOrderBy := by
  have hc : compileQuery q = .error .limitOffsetWithoutOrderBy := by
    unfold compileQuery
    rw [if_pos ⟨hlim, by simp [hord]⟩]
  constructor
  · exact hc
  · simp [startSyncModel, liveQueryCollectionOptionsModel, compileBasePipeline, hc]

/-- Witness for C7: a query with `limit = 3` and no ORDER BY. -/
theorem claimC7_witness :
    liveQueryCollectionOptionsModel ⟨false, some 3, none⟩ =
        .error .limitOffsetWithoutOrderBy ∧
    startSyncModel ⟨false, some 3, none⟩ = .error .limitOffsetWithoutOrderBy :=
  claimC7_limit_offset_requires_orderby ⟨false, some 3, none⟩ (by decide) (by decide)

/-! ## Concrete top-K scenario (spec section 8, scenario 1; order-by tests 402-588) -/

/-- The projection of the employees fixture relevant to the scenario query. -/
structure EmployeeRow where
  id : Nat
  salary : Nat
deriving DecidableEq, Repr

/-- Modelled from the spec: the declared ORDER BY `salary DESC` comparison of the
scenario, with ties broken by row key (spec section 3, order-by key spec). `a` comes
before `b` when its salary is larger, or on equal salaries when its id is not larger. -/
def salaryDescBefore (a b : EmployeeRow) : Prop :=
  b.salary < a.salary ∨ (a.salary = b.salary ∧ a.id ≤ b.id)

instance : DecidableRel salaryDescBefore := fun a b => by
  unfold salaryDescBefore; infer_instance

/-- Modelled from the spec (invariant I4): with ORDER BY, LIMIT `L` and OFFSET `O`, the
materialized result is exactly the rows ranked `[O, O + L)` of the full evaluation,
projected here to `(id, salary)` pairs. -/
def topKEval (rows : List EmployeeRow) (offset limit : Nat) : List (Nat × Nat) :=
  (((List.insertionSort salaryDescBefore rows).drop offset).take limit).map
    fun e => (e.id, e.salary)

/-- The initial employees: Alice 50000, Bob 60000, Charlie 55000, Diana 65000,
Eve 52000 (ids 1-5; the claim's letters A-E). -/
def employeesInit : List EmployeeRow :=
  [⟨1, 50000⟩, ⟨2, 60000⟩, ⟨3, 55000⟩, ⟨4, 65000⟩, ⟨5, 52000⟩]

/-- C3: `ORDER BY salary DESC OFFSET 1 LIMIT 2` materializes `[(B,60000),(C,55000)]`
on the initial employees; adding G (id 6) with salary 70000 gives
`[(D,65000),(B,60000)]`; with salary 62000 instead, `[(G,62000),(B,60000)]`; with
salary 43000 the materialized rows are unchanged. -/
theorem claimC3_topk_offset_scenario :
    topKEval employeesInit 1 2 = [(2, 60000), (3, 55000)] ∧
    topKEval (employeesInit ++ [⟨6, 70000⟩]) 1 2 = [(4, 65000), (2, 60000)] ∧
    topKEval (employeesInit ++ [⟨6, 62000⟩]) 1 2 = [(6, 62000), (2, 60000)] ∧
    topKEval (employeesInit ++ [⟨6, 43000⟩]) 1 2 = [(2, 60000), (3, 55000)] := by
  refine ⟨by decide, by decide, by decide, by decide⟩

/-! ## Identity hashing of binary payloads (`src/unnamed/part_000`, lines 29-72 and
141-150) -/

/-- The state behind `cachedReferenceHash`: the `hashCache` WeakMap (modelled as an
association list from object identity to hash) restricted to reference-hashed objects,
and the `nextRefId` counter, which starts at 1. -/
structure RefHashState where
  cache : List (Nat × Nat)
  nextRefId : Nat
deriving DecidableEq, Repr

/-- The initial state: empty cache, `nextRefId = 1` (source line 141). -/
def initialRefHashState : RefHashState := ⟨[], 1⟩

/-- The JS expression `a ^ b`: both operands are truncated to 32 bits (`ToInt32`)
before the bitwise xor. Two results of the source expression are equal exactly when
their 32-bit patterns are equal (the signed reinterpretation of a pattern is a
bijection), so hashes are modelled as the unsigned 32-bit patterns. -/
def jsInt32Xor (a b : Nat) : Nat :=
  (a % 4294967296) ^^^ (b % 4294967296)

/-- Embedding of `cachedReferenceHash` (source lines 142-150), parametrised by the
per-process random constant `FUNCTIONS`. A cached object returns its stored hash; a new
object is assigned `nextRefId ^ FUNCTIONS` — a 32-bit-truncating JS xor — which is
cached, and the counter is incremented. Object identity is modelled by a `Nat` id, as
the WeakMap keys on reference identity. -/
def cachedReferenceHash (functionsConst : Nat) (oid : Nat) (s : RefHashState) :
    Nat × RefHashState :=
  match s.cache.lookup oid with
  | some v => (v, s)
  | none =>
    let v := jsInt32Xor s.nextRefId functionsConst
    (v, ⟨(oid, v) :: s.cache, s.nextRefId + 1⟩)

/-- A binary payload (`Buffer`, `Uint8Array` or `File`): a reference identity plus its
byte content. -/
structure BinaryObject where
  oid : Nat
  bytes : List Nat
deriving DecidableEq, Repr

/-- Embedding of the `Buffer`/`Uint8Array`/`File` branch of `hashObject` (source lines
56-65): such inputs are not hashed by content; the function returns
`cachedReferenceHash` of the object, which depends only on its identity. -/
def hashObjectBinary (functionsConst : Nat) (b : BinaryObject) (s : RefHashState) :
    Nat × RefHashState :=
  cachedReferenceHash functionsConst b.oid s

/-- Runs `hashObjectBinary` over a sequence of (not necessarily distinct) binary
objects, collecting the returned hash values. -/
def runBinaryHashes (functionsConst : Nat) (objs : List BinaryObject)
    (s : RefHashState) : List Nat × RefHashState :=
  match objs with
  | [] => ([], s)
  | b :: rest =>
    let (v, s1) := hashObjectBinary functionsConst b s
    let (vs, s2) := runBinaryHashes functionsConst rest s1
    (v :: vs, s2)

/-- Invariant of the reference-hash cache: the counter started at 1 and only grew;
every stored hash is the truncating xor of some already-allocated ref id (at least 1,
below the counter) with the `FUNCTIONS` constant; equal hashes only occur at equal
object ids; and equal object ids carry equal hashes. -/
def RefHashInv (functionsConst : Nat) (s : RefHashState) : Prop :=
  1 ≤ s.nextRefId ∧
  (∀ p ∈ s.cache, ∃ r, 1 ≤ r ∧ r < s.nextRefId ∧ p.2 = jsInt32Xor r functionsConst) ∧
  (∀ p ∈ s.cache, ∀ q ∈ s.cache, p.2 = q.2 → p.1 = q.1) ∧
  (∀ p ∈ s.cache, ∀ q ∈ s.cache, p.1 = q.1 → p.2 = q.2)

theorem xor_left_injective {f a b : Nat} (h : a ^^^ f = b ^^^ f) : a = b := by
  have := congrArg (fun x => x ^^^ f) h
  simpa [Nat.xor_assoc] using this

/-- The truncating JS xor with a fixed constant identifies exactly the operands that
agree modulo `2^32`. -/
theorem jsInt32Xor_inj {f a b : Nat} (h : jsInt32Xor a f = jsInt32Xor b f) :
    a % 4294967296 = b % 4294967296 :=
  xor_left_injective h

theorem lookup_mem {l : List (Nat × Nat)} {k v : Nat} (h : l.lookup k = some v) :
    (k, v) ∈ l := by
  induction l with
  | nil => simp [List.lookup] at h
  | cons p rest ih =>
    rcases p with ⟨k1, v1⟩
    rcases hbeq : (k == k1) with _ | _
    · simp only [List.lookup, hbeq] at h
      exact List.mem_cons_of_mem _ (ih h)
    · simp only [List.lookup, hbeq] at h
      have hk : k = k1 := by simpa using hbeq
      have hv : v1 = v := by simpa using h
      subst hk; subst hv
      exact List.mem_cons_self _ _

theorem initial_RefHashInv (functionsConst : Nat) :
    RefHashInv functionsConst initialRefHashState := by
  refine ⟨Nat.le_refl 1, ?_, ?_, ?_⟩ <;> intro p hp <;> simp [initialRefHashState] at hp

theorem lookup_none_not_mem {l : List (Nat × Nat)} {k w : Nat}
    (h : l.lookup k = none) : (k, w) ∉ l := by
  intro hmem
  induction l with
  | nil => simp at hmem
  | cons p rest ih =>
    rcases p with ⟨k1, v1⟩
    rcases hbeq : (k == k1) with _ | _
    · simp only [List.lookup, hbeq] at h
      rcases List.mem_cons.mp hmem with heq | hmem2
      · have : k = k1 := congrArg Prod.fst heq
        simp [this] at hbeq
      · exact ih h hmem2
    · simp only [List.lookup, hbeq] at h
      exact Option.noConfusion h

theorem cachedReferenceHash_lookup (f oid : Nat) (s : RefHashState) :
    (cachedReferenceHash f oid s).2.cache.lookup oid =
      some (cachedReferenceHash f oid s).1 := by
  unfold cachedReferenceHash
  rcases hl : s.cache.lookup oid with _ | v
  · simp [List.lookup]
  · simpa using hl

theorem cachedReferenceHash_preserves (f oid : Nat) (s : RefHashState)
    {o w : Nat} (h : s.cache.lookup o = some w) :
    (cachedReferenceHash f oid s).2.cache.lookup o = some w := by
  unfold cachedReferenceHash
  rcases hl : s.cache.lookup oid with _ | v
  · have hne : (o == oid) = false := by
      rcases hbeq : (o == oid) with _ | _
      · rfl
      · have : o = oid := by simpa using hbeq
        rw [this] at h
        rw [h] at hl
        exact absurd hl (by simp)
    simpa [List.lookup, hne] using h
  · simpa using h

theorem cachedReferenceHash_inv (f oid : Nat) (s : RefHashState)
    (hInv : RefHashInv f s) (hbound : s.nextRefId ≤ 4294967296) :
    RefHashInv f (cachedReferenceHash f oid s).2 ∧
      (cachedReferenceHash f oid s).2.nextRefId ≤ s.nextRefId + 1 := by
  obtain ⟨h0, h1, h2, h3⟩ := hInv
  rcases hl : s.cache.lookup oid with _ | v
  · have hred : cachedReferenceHash f oid s =
        (jsInt32Xor s.nextRefId f,
          ⟨(oid, jsInt32Xor s.nextRefId f) :: s.cache, s.nextRefId + 1⟩) := by
      unfold cachedReferenceHash
      rw [hl]
    rw [hred]
    dsimp only
    refine ⟨⟨show 1 ≤ s.nextRefId + 1 by omega, ?_, ?_, ?_⟩,
      show s.nextRefId + 1 ≤ s.nextRefId + 1 by omega⟩
    · intro p hp
      rcases List.mem_cons.mp hp with heq | hmem
      · subst heq
        exact ⟨s.nextRefId, h0, show s.nextRefId < s.nextRefId + 1 by omega, rfl⟩
      · obtain ⟨r, hr1, hr2, hr3⟩ := h1 p hmem
        exact ⟨r, hr1, show r < s.nextRefId + 1 by omega, hr3⟩
    · intro p hp q hq heq
      rcases List.mem_cons.mp hp with hpeq | hpmem <;>
        rcases List.mem_cons.mp hq with hqeq | hqmem
      · subst hpeq; subst hqeq; rfl
      · subst hpeq
        exfalso
        obtain ⟨r, hr1, hr2, hr3⟩ := h1 q hqmem
        have heq2 : jsInt32Xor s.nextRefId f = jsInt32Xor r f := by
          rw [← hr3]
          exact heq
        have hmod := jsInt32Xor_inj heq2
        omega
      · subst hqeq
        exfalso
        obtain ⟨r, hr1, hr2, hr3⟩ := h1 p hpmem
        have heq2 : jsInt32Xor s.nextRefId f = jsInt32Xor r f := by
          rw [← hr3]
          exact heq.symm
        have hmod := jsInt32Xor_inj heq2
        omega
      · exact h2 p hpmem q hqmem heq
    · intro p hp q hq heq
      rcases List.mem_cons.mp hp with hpeq | hpmem <;>
        rcases List.mem_cons.mp hq with hqeq | hqmem
      · subst hpeq; subst hqeq; rfl
      · subst hpeq
        exfalso
        have hq1 : q.1 = oid := by rw [← heq]
        have : (oid, q.2) ∈ s.cache := by
          have := hqmem
          rwa [show q = (q.1, q.2) from rfl, hq1] at this
        exact lookup_none_not_mem hl this
      · subst hqeq
        exfalso
        have hp1 : p.1 = oid := by rw [heq]
        have : (oid, p.2) ∈ s.cache := by
          have := hpmem
          rwa [show p = (p.1, p.2) from rfl, hp1] at this
        exact lookup_none_not_mem hl this
      · exact h3 p hpmem q hqmem heq
  · have hred : cachedReferenceHash f oid s = (v, s) := by
      unfold cachedReferenceHash
      rw [hl]
    rw [hred]
    dsimp only
    exact ⟨⟨h0, h1, h2, h3⟩, show s.nextRefId ≤ s.nextRefId + 1 by omega⟩

theorem runBinaryHashes_spec (f : Nat) (objs : List BinaryObject) :
    ∀ (s : RefHashState), RefHashInv f s →
    s.nextRefId + objs.length ≤ 4294967297 →
    (RefHashInv f (runBinaryHashes f objs s).2 ∧
      (runBinaryHashes f objs s).2.nextRefId ≤ s.nextRefId + objs.length) ∧
    (∀ o w, s.cache.lookup o = some w →
      (runBinaryHashes f objs s).2.cache.lookup o = some w) ∧
    (∀ i, i < objs.length →
      ∀ (hi : i < objs.length),
      (runBinaryHashes f objs s).2.cache.lookup (objs.get ⟨i, hi⟩).oid =
        some ((runBinaryHashes f objs s).1.getD i 0)) := by
  induction objs with
  | nil =>
    intro s hInv hbound
    exact ⟨⟨hInv, by simp [runBinaryHashes]⟩, fun o w h => h,
      fun i hi => absurd hi (by simp)⟩
  | cons b rest ih =>
    intro s hInv hbound
    have hlenc : (b :: rest).length = rest.length + 1 := List.length_cons b rest
    have hb : s.nextRefId ≤ 4294967296 := by
      rw [hlenc] at hbound
      omega
    obtain ⟨hInv1, hgrow1⟩ := cachedReferenceHash_inv f b.oid s hInv hb
    have hbound1 :
        (cachedReferenceHash f b.oid s).2.nextRefId + rest.length ≤ 4294967297 := by
      rw [hlenc] at hbound
      omega
    obtain ⟨⟨ihInv, ihGrow⟩, ihPres, ihIdx⟩ :=
      ih (cachedReferenceHash f b.oid s).2 hInv1 hbound1
    have hrun : runBinaryHashes f (b :: rest) s =
        ((cachedReferenceHash f b.oid s).1 ::
           (runBinaryHashes f rest (cachedReferenceHash f b.oid s).2).1,
         (runBinaryHashes f rest (cachedReferenceHash f b.oid s).2).2) := by
      simp [runBinaryHashes, hashObjectBinary]
    refine ⟨⟨by rw [hrun]; exact ihInv, ?_⟩, ?_, ?_⟩
    · rw [hrun, hlenc]
      dsimp only
      omega
    · intro o w h
      rw [hrun]
      exact ihPres o w (cachedReferenceHash_preserves f b.oid s h)
    · intro i hi hi2
      rw [hrun]
      match i, hi with
      | 0, _ =>
        simpa using ihPres b.oid (cachedReferenceHash f b.oid s).1
          (cachedReferenceHash_lookup f b.oid s)
      | Nat.succ m, hm =>
        have hm2 : m < rest.length := by simpa using hm
        simpa using ihIdx m hm2 hm2

/-- Hashing a sequence of pairwise-distinct, never-before-seen objects assigns the
object at position `i` the hash `jsInt32Xor (nextRefId + i) FUNCTIONS` — the raw ref-id
progression behind both the amended C10 theorem and its wraparound counterexample. -/
theorem runBinaryHashes_fresh (f : Nat) :
    ∀ (objs : List BinaryObject) (s : RefHashState),
      (∀ b ∈ objs, s.cache.lookup b.oid = none) →
      (objs.map BinaryObject.oid).Nodup →
      ∀ i, i < objs.length →
        (runBinaryHashes f objs s).1.getD i 0 = jsInt32Xor (s.nextRefId + i) f := by
  intro objs
  induction objs with
  | nil =>
    intro s _ _ i hi
    exact absurd hi (by simp)
  | cons b rest ih =>
    intro s hfresh hnodup i hi
    have hlb : s.cache.lookup b.oid = none := hfresh b (List.mem_cons_self b rest)
    have hv : cachedReferenceHash f b.oid s =
        (jsInt32Xor s.nextRefId f,
          ⟨(b.oid, jsInt32Xor s.nextRefId f) :: s.cache, s.nextRefId + 1⟩) := by
      unfold cachedReferenceHash
      rw [hlb]
    have hrun : runBinaryHashes f (b :: rest) s =
        ((cachedReferenceHash f b.oid s).1 ::
           (runBinaryHashes f rest (cachedReferenceHash f b.oid s).2).1,
         (runBinaryHashes f rest (cachedReferenceHash f b.oid s).2).2) := by
      simp [runBinaryHashes, hashObjectBinary]
    have hnd := hnodup
    rw [List.map_cons, List.nodup_cons] at hnd
    rw [hrun]
    cases i with
    | zero =>
      have hv1 : (cachedReferenceHash f b.oid s).1 = jsInt32Xor s.nextRefId f := by
        rw [hv]
      rw [List.getD_cons_zero, hv1, Nat.add_zero]
    | succ m =>
      have hm : m < rest.length := by simpa using hi
      have hs1cache : (cachedReferenceHash f b.oid s).2.cache =
          (b.oid, jsInt32Xor s.nextRefId f) :: s.cache := by
        rw [hv]
      have hs1id : (cachedReferenceHash f b.oid s).2.nextRefId = s.nextRefId + 1 := by
        rw [hv]
      have hfresh1 : ∀ b2 ∈ rest,
          (cachedReferenceHash f b.oid s).2.cache.lookup b2.oid = none := by
        intro b2 hb2
        rw [hs1cache]
        have hne : b2.oid ≠ b.oid := by
          intro hco
          exact hnd.1 (hco ▸ List.mem_map_of_mem _ hb2)
        have hbeq : (b2.oid == b.oid) = false := by simp [hne]
        simp only [List.lookup, hbeq]
        exact hfresh b2 (List.mem_cons_of_mem _ hb2)
      have hrec := ih (cachedReferenceHash f b.oid s).2 hfresh1 hnd.2 m hm
      rw [hs1id] at hrec
      rw [List.getD_cons_succ]
      have harith : s.nextRefId + (m + 1) = s.nextRefId + 1 + m := by omega
      rw [harith]
      exact hrec

/-- The decision function of the claim written out at run level needs 2^32 + 1 fresh
objects to wrap the ref-id counter: object identities 0 through 2^32, all with empty
byte content. -/
def ceObjs : List BinaryObject :=
  (List.range 4294967297).map fun k => ⟨k, []⟩

theorem ceObjs_length : ceObjs.length = 4294967297 := by
  simp [ceObjs]

theorem ceObjs_fresh : ∀ b ∈ ceObjs, initialRefHashState.cache.lookup b.oid = none := by
  intro b _
  rfl

theorem ceObjs_nodup : (ceObjs.map BinaryObject.oid).Nodup := by
  have h : ceObjs.map BinaryObject.oid = List.range 4294967297 := by
    unfold ceObjs
    rw [List.map_map]
    show List.map (fun k => k) (List.range 4294967297) = List.range 4294967297
    exact List.map_id' _
  rw [h]
  exact List.nodup_range _

theorem ceObjs_getD_zero : ceObjs.getD 0 ⟨0, []⟩ = ⟨0, []⟩ := by
  have h1 : ceObjs[(0 : Nat)]? = some ⟨0, []⟩ := by
    simp [ceObjs, List.getElem?_range (show (0 : Nat) < 4294967297 by norm_num)]
  rw [List.getD_eq_getElem?_getD, h1]
  rfl

theorem ceObjs_getD_last : ceObjs.getD 4294967296 ⟨0, []⟩ = ⟨4294967296, []⟩ := by
  have h1 : ceObjs[(4294967296 : Nat)]? = some ⟨4294967296, []⟩ := by
    simp [ceObjs, List.getElem?_range (show (4294967296 : Nat) < 4294967297 by norm_num)]
  rw [List.getD_eq_getElem?_getD, h1]
  rfl

/-- C10 counterexample: JS `^` truncates its operands to 32 bits, so the per-process
ref ids wrap after 2^32 allocations. Hashing 2^32 + 1 distinct binary objects (equal
empty byte content throughout), the first object (ref id 1) and the last object (ref id
2^32 + 1) are distinct objects yet receive the same hash value — the claim's
unconditional distinctness is false. -/
theorem claimC10_counterexample :
    (ceObjs.getD 0 ⟨0, []⟩).oid ≠ (ceObjs.getD 4294967296 ⟨0, []⟩).oid ∧
    (runBinaryHashes 0 ceObjs initialRefHashState).1.getD 0 0 =
      (runBinaryHashes 0 ceObjs initialRefHashState).1.getD 4294967296 0 := by
  constructor
  · rw [ceObjs_getD_zero, ceObjs_getD_last]
    decide
  · have hf := runBinaryHashes_fresh 0 ceObjs initialRefHashState ceObjs_fresh
      ceObjs_nodup
    have e0 := hf 0 (by rw [ceObjs_length]; norm_num)
    have e1 := hf 4294967296 (by rw [ceObjs_length]; norm_num)
    rw [e0, e1]
    decide

/-- C10 (amended): binary payloads are hashed by identity, not by content — the hash of
a binary object ignores its bytes entirely, and within any sequence of reference-hash
calls starting from the initial state that allocates at most 2^32 ref ids, two calls
return the same number iff they were made on the same object identity: repeated calls
on one object are cached to one stable number, and two distinct objects get distinct
numbers even when their bytes coincide. Beyond 2^32 allocations the 32-bit-truncating
JS xor wraps and distinctness fails (see the counterexample). -/
theorem claimC10_identity_hashing (f : Nat) (objs : List BinaryObject)
    (hlen : objs.length ≤ 4294967296)
    (i j : Nat) (hi : i < objs.length) (hj : j < objs.length) :
    ((runBinaryHashes f objs initialRefHashState).1.getD i 0 =
        (runBinaryHashes f objs initialRefHashState).1.getD j 0 ↔
      (objs.get ⟨i, hi⟩).oid = (objs.get ⟨j, hj⟩).oid) ∧
    (∀ (oid : Nat) (bytes1 bytes2 : List Nat) (s : RefHashState),
      hashObjectBinary f ⟨oid, bytes1⟩ s = hashObjectBinary f ⟨oid, bytes2⟩ s) := by
  obtain ⟨⟨hInv, _⟩, _, hIdx⟩ :=
    runBinaryHashes_spec f objs initialRefHashState (initial_RefHashInv f)
      (by simp only [initialRefHashState]; omega)
  have hli := hIdx i hi hi
  have hlj := hIdx j hj hj
  constructor
  · constructor
    · intro hout
      rw [hout] at hli
      have hmi := lookup_mem hli
      have hmj := lookup_mem hlj
      exact hInv.2.2.1 _ hmi _ hmj rfl
    · intro hoid
      rw [hoid] at hli
      rw [hli] at hlj
      exact (Option.some.injEq _ _).mp hlj
  · intro oid bytes1 bytes2 s
    rfl

/-- Witness for C10: three calls with object ids 1, 2, 1 (the first and third
byte-for-byte different but identical in identity, the second byte-equal to the first
but a distinct object). -/
theorem claimC10_witness :
    ((runBinaryHashes 5 [⟨1, [0]⟩, ⟨2, [0]⟩, ⟨1, [9]⟩] initialRefHashState).1.getD 0 0 =
        (runBinaryHashes 5 [⟨1, [0]⟩, ⟨2, [0]⟩, ⟨1, [9]⟩] initialRefHashState).1.getD 2 0 ↔
      (([⟨1, [0]⟩, ⟨2, [0]⟩, ⟨1, [9]⟩] : List BinaryObject).get ⟨0, by decide⟩).oid =
        (([⟨1, [0]⟩, ⟨2, [0]⟩, ⟨1, [9]⟩] : List BinaryObject).get ⟨2, by decide⟩).oid) ∧
    (∀ (oid : Nat) (bytes1 bytes2 : List Nat) (s : RefHashState),
      hashObjectBinary 5 ⟨oid, bytes1⟩ s = hashObjectBinary 5 ⟨oid, bytes2⟩ s) :=
  claimC10_identity_hashing 5 [⟨1, [0]⟩, ⟨2, [0]⟩, ⟨1, [9]⟩] (by decide) 0 2
    (by decide) (by decide)

/-! ## Fractional-index ordering invariant (spec I3; `compare`, source lines 142-164) -/

/-- Three-way integer comparison returning `-1`, `0` or `1`, as the JS comparators do. -/
def cmpInt (a b : Int) : Int :=
  if a < b then -1 else if b < a then 1 else 0

/-- Declared direction of an order-by key. -/
inductive Direction where
  | asc
  | desc
deriving DecidableEq, Repr

/-- Declared null routing of an order-by key. -/
inductive NullsOrder where
  | first
  | last
deriving DecidableEq, Repr

/-- One declared order-by key: an extractor (an unorderable or missing value is `none`),
a direction, and a nulls end. -/
structure OrderByEntry (Row : Type) where
  extract : Row → Option Int
  dir : Direction
  nulls : NullsOrder

/-- Modelled from the spec (section 4.E key-comparison semantics; the comparator is
built by the compiler, which is not part of the given source tree): nulls are routed to
the declared end, non-null values compare by value with the sign inverted under `desc`. -/
def cmpEntry (e : OrderByEntry Row) (r1 r2 : Row) : Int :=
  match e.extract r1, e.extract r2 with
  | none, none => 0
  | none, some _ => (match e.nulls with | .first => -1 | .last => 1)
  | some _, none => (match e.nulls with | .first => 1 | .last => -1)
  | some a, some b => (match e.dir with | .asc => cmpInt a b | .desc => - cmpInt a b)

/-- Modelled from the spec (section 3, order-by key spec): the declared keys are applied
lexicographically, ties falling through to the next key and finally to the row key. -/
def cmpOrderKeys (es : List (OrderByEntry Row)) (keyOf : Row → Nat) (r1 r2 : Row) :
    Int :=
  match es with
  | [] => cmpInt (keyOf r1) (keyOf r2)
  | e :: rest =>
    if cmpEntry e r1 r2 = 0 then cmpOrderKeys rest keyOf r1 r2 else cmpEntry e r1 r2

/-- Modelled from the spec (section 4.E fractional-index scheme, whose operator is not
part of the given source tree): the top-K operator stamps the row of window rank `n`
with a nonempty string, strictly increasing in rank under lexicographic order. This is
one concrete assignment satisfying the scheme's stated guarantee. -/
def fracIndexOfRank (rank : Nat) : String :=
  ⟨List.replicate (rank + 1) 'a'⟩

/-- Embedding of the result collection's `compare` (source lines 142-164): when both
fractional indexes are present (and truthy, i.e. nonempty), compare them
lexicographically to `-1`/`1`/`0`; fall back to `0` when either is missing. -/
def compare (index1 index2 : Option String) : Int :=
  match index1, index2 with
  | some i1, some i2 =>
    if i1 ≠ "" ∧ i2 ≠ "" then
      if i1 < i2 then -1 else if i2 < i1 then 1 else 0
    else 0
  | _, _ => 0

theorem cmpInt_neg (a b : Int) : cmpInt a b = - cmpInt b a := by
  unfold cmpInt
  split_ifs <;> omega

theorem cmpEntry_neg (e : OrderByEntry Row) (r1 r2 : Row) :
    cmpEntry e r1 r2 = - cmpEntry e r2 r1 := by
  unfold cmpEntry
  rcases h1 : e.extract r1 with _ | a <;> rcases h2 : e.extract r2 with _ | b <;>
    rcases hn : e.nulls with _ | _ <;> rcases hd : e.dir with _ | _ <;>
    simp only [h1, h2, hn, hd] <;>
    first
      | omega
      | (have h := cmpInt_neg a b; omega)

theorem cmpOrderKeys_neg (es : List (OrderByEntry Row)) (keyOf : Row → Nat)
    (r1 r2 : Row) : cmpOrderKeys es keyOf r1 r2 = - cmpOrderKeys es keyOf r2 r1 := by
  induction es with
  | nil =>
    unfold cmpOrderKeys
    have h := cmpInt_neg ((keyOf r1 : Int)) ((keyOf r2 : Int))
    omega
  | cons e rest ih =>
    unfold cmpOrderKeys
    have h := cmpEntry_neg e r1 r2
    by_cases h0 : cmpEntry e r1 r2 = 0
    · have h0' : cmpEntry e r2 r1 = 0 := by omega
      simp [h0, h0', ih]
    · have h0' : ¬cmpEntry e r2 r1 = 0 := by omega
      simp only [h0, h0', if_false]
      omega

theorem replicate_a_lt_iff :
    ∀ i j : Nat,
      (List.Lex (· < ·) (List.replicate i 'a') (List.replicate j 'a') ↔ i < j) := by
  intro i
  induction i with
  | zero =>
    intro j
    cases j with
    | zero =>
      constructor
      · intro h
        cases h
      · intro h
        omega
    | succ j =>
      simp only [List.replicate]
      exact ⟨fun _ => Nat.succ_pos j, fun _ => List.Lex.nil⟩
  | succ i ih =>
    intro j
    cases j with
    | zero =>
      constructor
      · intro h
        cases h
      · intro h
        omega
    | succ j =>
      simp only [List.replicate]
      constructor
      · intro h
        cases h with
        | cons htail => exact Nat.succ_lt_succ ((ih j).mp htail)
        | rel hlt => exact absurd hlt (by decide)
      · intro h
        exact List.Lex.cons ((ih j).mpr (Nat.lt_of_succ_lt_succ h))

theorem fracIndexOfRank_lt_iff (i j : Nat) :
    fracIndexOfRank i < fracIndexOfRank j ↔ i < j := by
  rw [String.lt_iff_toList_lt]
  show List.Lex (· < ·) (fracIndexOfRank i).toList (fracIndexOfRank j).toList ↔ i < j
  have h1 : (fracIndexOfRank i).toList = List.replicate (i + 1) 'a' := rfl
  have h2 : (fracIndexOfRank j).toList = List.replicate (j + 1) 'a' := rfl
  rw [h1, h2, replicate_a_lt_iff]
  omega

theorem fracIndexOfRank_ne_empty (n : Nat) : fracIndexOfRank n ≠ "" := by
  intro h
  have hd := congrArg String.data h
  simp [fracIndexOfRank] at hd

theorem compare_lt_iff {s1 s2 : String} (h1 : s1 ≠ "") (h2 : s2 ≠ "") :
    (compare (some s1) (some s2) < 0 ↔ s1 < s2) := by
  show (if s1 ≠ "" ∧ s2 ≠ "" then
      if s1 < s2 then -1 else if s2 < s1 then 1 else 0
    else (0 : Int)) < 0 ↔ s1 < s2
  rw [if_pos ⟨h1, h2⟩]
  split_ifs with hlt hgt
  · exact ⟨fun _ => hlt, fun _ => by omega⟩
  · exact ⟨fun h => absurd h (by omega), fun h => absurd h hlt⟩
  · exact ⟨fun h => absurd h (by omega), fun h => absurd h hlt⟩

/-- C1: for a window of simultaneously-present rows strictly sorted by the declared
order-by keys, row `i` precedes row `j` under `cmpOrderKeys` iff its stamped fractional
index is lexicographically smaller, and consequently the result collection's `compare`
function (plain string comparison of the fractional indexes) ranks the rows exactly in
the declared order-by order. -/
theorem claimC1_fracindex_order {Row : Type} (es : List (OrderByEntry Row))
    (keyOf : Row → Nat) (w : List Row)
    (hsorted : ∀ i j : Fin w.length, (i : Nat) < (j : Nat) →
      cmpOrderKeys es keyOf (w.get i) (w.get j) < 0)
    (i j : Fin w.length) :
    (cmpOrderKeys es keyOf (w.get i) (w.get j) < 0 ↔
      fracIndexOfRank i < fracIndexOfRank j) ∧
    (compare (some (fracIndexOfRank i)) (some (fracIndexOfRank j)) < 0 ↔
      cmpOrderKeys es keyOf (w.get i) (w.get j) < 0) := by
  have hcmp := compare_lt_iff (fracIndexOfRank_ne_empty i)
    (fracIndexOfRank_ne_empty j)
  have hfrac := fracIndexOfRank_lt_iff i j
  rcases Nat.lt_trichotomy (i : Nat) (j : Nat) with h | h | h
  · have hc := hsorted i j h
    have hf : fracIndexOfRank i < fracIndexOfRank j := hfrac.mpr h
    exact ⟨⟨fun _ => hf, fun _ => hc⟩, ⟨fun _ => hc, fun _ => hcmp.mpr hf⟩⟩
  · have hij : i = j := Fin.ext h
    subst hij
    have hz := cmpOrderKeys_neg es keyOf (w.get i) (w.get i)
    have hc : ¬cmpOrderKeys es keyOf (w.get i) (w.get i) < 0 := by omega
    have hf : ¬fracIndexOfRank i < fracIndexOfRank i := by
      rw [fracIndexOfRank_lt_iff]
      omega
    exact ⟨⟨fun hx => absurd hx hc, fun hx => absurd hx hf⟩,
      ⟨fun hx => absurd (hcmp.mp hx) hf, fun hx => absurd hx hc⟩⟩
  · have hc' := hsorted j i h
    have hneg := cmpOrderKeys_neg es keyOf (w.get i) (w.get j)
    have hrev := cmpOrderKeys_neg es keyOf (w.get j) (w.get i)
    have hc : ¬cmpOrderKeys es keyOf (w.get i) (w.get j) < 0 := by omega
    have hf : ¬fracIndexOfRank i < fracIndexOfRank j := by
      rw [fracIndexOfRank_lt_iff]
      omega
    exact ⟨⟨fun hx => absurd hx hc, fun hx => absurd hx hf⟩,
      ⟨fun hx => absurd (hcmp.mp hx) hf, fun hx => absurd hx hc⟩⟩

/-- A concrete one-key ascending order-by spec used by the C1 witness. -/
def esW : List (OrderByEntry Int) := [⟨fun r => some r, .asc, .first⟩]

/-- A concrete sorted window used by the C1 witness. -/
def wW : List Int := [1, 2, 3]

/-- Witness for C1 on the three-row window `[1, 2, 3]` at ranks 0 and 1. -/
theorem claimC1_witness :
    (cmpOrderKeys esW (fun r => r.toNat) (wW.get ⟨0, by decide⟩)
        (wW.get ⟨1, by decide⟩) < 0 ↔
      fracIndexOfRank 0 < fracIndexOfRank 1) ∧
    (compare (some (fracIndexOfRank 0)) (some (fracIndexOfRank 1)) < 0 ↔
      cmpOrderKeys esW (fun r => r.toNat) (wW.get ⟨0, by decide⟩)
        (wW.get ⟨1, by decide⟩) < 0) :=
  claimC1_fracindex_order esW (fun r => r.toNat) wW (by decide)
    ⟨0, by decide⟩ ⟨1, by decide⟩

/-! ## The ordered-mode driver loop and readiness (source lines 319-348, 500-554, 620-623) -/

/-- Static configuration of the driver model: the query's offset and limit, the
readiness of the source collections (`allCollectionsReady()` /
`allCollectionsReadyOrInitialCommit()`, modelled as externally fixed during one
delivery), and the pipeline's WHERE filter applied by the graph to injected rows. -/
structure DriverConfig where
  offset : Nat
  limit : Nat
  allReady : Bool
  allReadyOrInitialCommit : Bool
  pass : Nat → Bool

/-- Driver state: rows sent to the graph input but not yet processed (`pending`), the
number of rows currently admitted into the top-K buffer, the sorted index's remaining
contents after the biggest sent value, the `sentValuesInfo.biggest` tracker, the
`subscribedToAllCollections` flag, and instrumentation counters for `markReady()`,
`dataNeeded()` and `graph.run()` invocations. -/
structure DriverState where
  pending : List Nat
  buffer : Nat
  remaining : List Nat
  biggest : Option Nat
  subscribed : Bool
  readyCalls : Nat
  dataNeededCalls : Nat
  graphRuns : Nat
deriving DecidableEq, Repr

/-- Modelled from the spec (section 4.E): `dataNeeded()` returns
`max(0, (offset + limit) - |buffer|)`, the number of rows the top-K still wants. -/
def dataNeededM (cfg : DriverConfig) (s : DriverState) : Nat :=
  cfg.offset + cfg.limit - s.buffer

/-- Modelled from the spec (section 4.B): `graph.run()` drains the pending rows through
the pipeline; the rows surviving the WHERE filter are admitted into the top-K buffer. -/
def graphRunM (cfg : DriverConfig) (s : DriverState) : DriverState :=
  { s with
    pending := []
    buffer := s.buffer + (s.pending.filter cfg.pass).length
    graphRuns := s.graphRuns + 1 }

/-- One `markReady()` invocation on the result collection. -/
def markReadyM (s : DriverState) : DriverState :=
  { s with readyCalls := s.readyCalls + 1 }

/-- One `dataNeeded()` probe (instrumentation only). -/
def bumpDataNeeded (s : DriverState) : DriverState :=
  { s with dataNeededCalls := s.dataNeededCalls + 1 }

/-- The biggest-sent tracker update of `trackSentValues` (source lines 868-878) over the
values loaded from the index, with the natural-number comparator. -/
def trackBiggest (biggest : Option Nat) (vs : List Nat) : Option Nat :=
  vs.foldl
    (fun b v =>
      match b with
      | none => some v
      | some bv => if cmpInt bv v < 0 then some v else some bv)
    biggest

/-- The state change of `loadNextItems(n)` before it reaches the pipeline (source lines
538-550): `index.take(n, biggestSent)` — modelled from the spec as the first `n` of the
index's remaining rows — is injected as pending input, and the tracker advances. -/
def injectNextItems (n : Nat) (s : DriverState) : DriverState :=
  { s with
    remaining := s.remaining.drop n
    pending := s.pending ++ s.remaining.take n
    biggest := trackBiggest s.biggest (s.remaining.take n) }

/-- The three mutually recursive driver procedures: `maybeRunGraph(callback?)` (source
lines 329-348), `loadMoreIfNeeded` (lines 503-513) and `loadNextItems` (lines 538-550). -/
inductive DriverCall where
  | runGraph (withCallback : Bool)
  | loadMore
  | loadNext (n : Nat)
deriving DecidableEq, Repr

/-- Embedding of the driver loop, with fuel for the mutual recursion (the source relies
on `dataNeeded()` shrinking to terminate; exhausted fuel returns the state unchanged).
`runGraph withCallback` is `maybeRunGraph` — guarded by
`allCollectionsReadyOrInitialCommit() && subscribedToAllCollections`, it runs the graph,
then evaluates the callback (`loadMoreIfNeeded` when one was passed, `ready = true`
otherwise), and invokes `markReady()` iff `ready` and `allCollectionsReady()`.
`loadMore` is `loadMoreIfNeeded` — it probes `dataNeeded()`, loads that many items when
positive, and reports readiness iff the probe returned zero. `loadNext n` is
`loadNextItems(n)` — it injects the next `n` index rows and reruns the graph with the
callback. The returned boolean is the callback's readiness result. -/
def driveM (cfg : DriverConfig) : Nat → DriverCall → DriverState → DriverState × Bool
  | 0, _, s => (s, false)
  | fuel + 1, .runGraph withCallback, s =>
    if cfg.allReadyOrInitialCommit ∧ s.subscribed then
      if withCallback then
        (if (driveM cfg fuel .loadMore (graphRunM cfg s)).2 ∧ cfg.allReady then
            markReadyM (driveM cfg fuel .loadMore (graphRunM cfg s)).1
          else (driveM cfg fuel .loadMore (graphRunM cfg s)).1,
          (driveM cfg fuel .loadMore (graphRunM cfg s)).2)
      else
        (if cfg.allReady then markReadyM (graphRunM cfg s) else graphRunM cfg s, true)
    else (s, false)
  | fuel + 1, .loadMore, s =>
    if 0 < dataNeededM cfg s then
      ((driveM cfg fuel (.loadNext (dataNeededM cfg s)) (bumpDataNeeded s)).1, false)
    else (bumpDataNeeded s, true)
  | fuel + 1, .loadNext n, s =>
    ((driveM cfg fuel (.runGraph true) (injectNextItems n s)).1, false)

/-- The startup sequence of an order-by-optimized subscription: during subscription
setup (`subscribedToAllCollections` still false) the initial
`loadNextItems(offset + limit)` runs (source line 554) — its inner `maybeRunGraph` is a
no-op; then the flag is set (line 620) and the initial `maybeRunGraph()` runs with no
callback (line 623). -/
def orderedStartupM (cfg : DriverConfig) (fuel : Nat) (s : DriverState) : DriverState :=
  let afterLoad :=
    (driveM cfg fuel (.loadNext (cfg.offset + cfg.limit)) { s with subscribed := false }).1
  (driveM cfg fuel (.runGraph false) { afterLoad with subscribed := true }).1

/-- Configuration of the C5 counterexample: `OFFSET 1 LIMIT 2` with every source
collection ready and no WHERE filtering. -/
def cfgCE : DriverConfig := ⟨1, 2, true, true, fun _ => true⟩

/-- Start state of the C5 counterexample: the sorted index holds only two rows, so the
top-K window cannot be filled. -/
def s0CE : DriverState := ⟨[], 0, [10, 20], none, false, 0, 0, 0⟩

/-- C5 counterexample: on startup the driver runs the graph once, never invokes
`dataNeeded()`, and invokes `markReady()` — even though `dataNeeded()` is still
positive at that point. The initial `maybeRunGraph()` (source line 623) passes no
callback, so `ready` defaults to `true` and `markReady()` fires whenever all source
collections are ready, regardless of `dataNeeded()`. -/
theorem claimC5_counterexample :
    (orderedStartupM cfgCE 10 s0CE).graphRuns = 1 ∧
    (orderedStartupM cfgCE 10 s0CE).dataNeededCalls = 0 ∧
    (orderedStartupM cfgCE 10 s0CE).readyCalls = 1 ∧
    dataNeededM cfgCE (orderedStartupM cfgCE 10 s0CE) = 1 := by
  refine ⟨by decide, by decide, by decide, by decide⟩

/-- When `loadMoreIfNeeded` reports ready, the state it returns has `dataNeeded() = 0`. -/
theorem loadMore_ready_no_data (cfg : DriverConfig) :
    ∀ (fuel : Nat) (s : DriverState),
      (driveM cfg fuel .loadMore s).2 = true →
      dataNeededM cfg (driveM cfg fuel .loadMore s).1 = 0 := by
  intro fuel s h
  cases fuel with
  | zero => simp [driveM] at h
  | succ fuel =>
    by_cases hn : 0 < dataNeededM cfg s
    · simp [driveM, hn] at h
    · simp only [driveM, hn, if_false]
      simp only [dataNeededM, bumpDataNeeded] at hn ⊢
      omega

/-- In the callback-driven procedures, `markReady()` is invoked only in states where
`dataNeeded()` has just returned zero: if a run changed the `markReady` counter, the
final state satisfies `dataNeeded() = 0`. -/
theorem driveM_mark_only_when_no_data (cfg : DriverConfig) :
    ∀ fuel : Nat,
      (∀ s, (driveM cfg fuel (.runGraph true) s).1.readyCalls ≠ s.readyCalls →
        dataNeededM cfg (driveM cfg fuel (.runGraph true) s).1 = 0) ∧
      (∀ s, (driveM cfg fuel .loadMore s).1.readyCalls ≠ s.readyCalls →
        dataNeededM cfg (driveM cfg fuel .loadMore s).1 = 0) ∧
      (∀ n s, (driveM cfg fuel (.loadNext n) s).1.readyCalls ≠ s.readyCalls →
        dataNeededM cfg (driveM cfg fuel (.loadNext n) s).1 = 0) := by
  intro fuel
  induction fuel with
  | zero =>
    exact ⟨fun s h => absurd rfl h, fun s h => absurd rfl h, fun n s h => absurd rfl h⟩
  | succ fuel ih =>
    obtain ⟨ihR, ihM, ihN⟩ := ih
    refine ⟨?_, ?_, ?_⟩
    · intro s h
      by_cases hg : cfg.allReadyOrInitialCommit ∧ s.subscribed
      · simp only [driveM, hg, if_true, if_pos] at h ⊢
        by_cases hm : (driveM cfg fuel .loadMore (graphRunM cfg s)).2 ∧ cfg.allReady
        · simp only [hm, if_true] at h ⊢
          have := loadMore_ready_no_data cfg fuel (graphRunM cfg s) hm.1
          simpa [markReadyM, dataNeededM] using this
        · simp only [hm, if_false] at h ⊢
          have hready : (driveM cfg fuel .loadMore (graphRunM cfg s)).1.readyCalls ≠
              (graphRunM cfg s).readyCalls := by
            simpa [graphRunM] using h
          exact ihM (graphRunM cfg s) hready
      · simp [driveM, hg] at h
    · intro s h
      by_cases hn : 0 < dataNeededM cfg s
      · simp only [driveM, hn, if_true] at h ⊢
        have hready : (driveM cfg fuel (.loadNext (dataNeededM cfg s))
            (bumpDataNeeded s)).1.readyCalls ≠ (bumpDataNeeded s).readyCalls := by
          simpa [bumpDataNeeded] using h
        exact ihN (dataNeededM cfg s) (bumpDataNeeded s) hready
      · simp [driveM, hn, bumpDataNeeded] at h
    · intro n s h
      simp only [driveM] at h ⊢
      have hready : (driveM cfg fuel (.runGraph true)
          (injectNextItems n s)).1.readyCalls ≠ (injectNextItems n s).readyCalls := by
        simpa [injectNextItems] using h
      exact ihR (injectNextItems n s) hready

/-- When some source collection is not ready, `markReady()` is never invoked. -/
theorem driveM_no_mark_when_not_ready (cfg : DriverConfig)
    (hready : cfg.allReady = false) :
    ∀ (fuel : Nat) (call : DriverCall) (s : DriverState),
      (driveM cfg fuel call s).1.readyCalls = s.readyCalls := by
  intro fuel
  induction fuel with
  | zero => intro call s; rfl
  | succ fuel ih =>
    intro call s
    cases call with
    | runGraph withCallback =>
      by_cases hg : cfg.allReadyOrInitialCommit ∧ s.subscribed
      · cases withCallback with
        | true =>
          simp only [driveM, hg, and_self, if_true, hready, Bool.false_eq_true,
            and_false, if_false]
          rw [ih .loadMore (graphRunM cfg s)]
          rfl
        | false =>
          simp only [driveM, hg, and_self, if_true, hready, Bool.false_eq_true,
            if_false]
          rfl
      · simp [driveM, hg]
    | loadMore =>
      by_cases hn : 0 < dataNeededM cfg s
      · simp only [driveM, hn, if_true]
        rw [ih (.loadNext (dataNeededM cfg s)) (bumpDataNeeded s)]
        rfl
      · simp [driveM, hn, bumpDataNeeded]
    | loadNext n =>
      simp only [driveM]
      rw [ih (.runGraph true) (injectNextItems n s)]
      rfl

/-- C5 (amended): in the runs the driver performs with the `loadMoreIfNeeded` callback
(graph runs triggered by delivered or loaded changes of the order-by-optimized
collection), `markReady` fires only in states where `dataNeeded()` returns zero;
`markReady` is never invoked while some source collection is not ready; whenever
`dataNeeded()` returns a positive `n`, the driver runs `loadNextItems(n)`, which takes
the next `n` rows of the sorted index after the biggest sent value, injects them, and
runs the graph again with the callback. The initial `maybeRunGraph()` of the startup
sequence, however, passes no callback and may invoke `markReady` with `dataNeeded()`
still positive (see the counterexample). -/
theorem claimC5_ordered_loop (cfg : DriverConfig) :
    (∀ (fuel : Nat) (s : DriverState),
      (driveM cfg fuel (.runGraph true) s).1.readyCalls ≠ s.readyCalls →
        dataNeededM cfg (driveM cfg fuel (.runGraph true) s).1 = 0) ∧
    (∀ (fuel : Nat) (call : DriverCall) (s : DriverState), cfg.allReady = false →
      (driveM cfg fuel call s).1.readyCalls = s.readyCalls) ∧
    (∀ (fuel : Nat) (s : DriverState), 0 < dataNeededM cfg s →
      driveM cfg (fuel + 1) .loadMore s =
        ((driveM cfg fuel (.loadNext (dataNeededM cfg s)) (bumpDataNeeded s)).1, false)) ∧
    (∀ (fuel n : Nat) (s : DriverState),
      driveM cfg (fuel + 1) (.loadNext n) s =
        ((driveM cfg fuel (.runGraph true) (injectNextItems n s)).1, false)) := by
  refine ⟨fun fuel s => (driveM_mark_only_when_no_data cfg fuel).1 s,
    fun fuel call s h => driveM_no_mark_when_not_ready cfg h fuel call s,
    fun fuel s hn => by simp [driveM, hn],
    fun fuel n s => rfl⟩

/-- Configuration for the C5 witness: `LIMIT 1`, everything ready, no filtering. -/
def cfgW5 : DriverConfig := ⟨0, 1, true, true, fun _ => true⟩

/-- State for the C5 witness: one pending row fills the window exactly. -/
def sW5 : DriverState := ⟨[5], 0, [], none, true, 0, 0, 0⟩

/-- State for the second part of the C5 witness: an empty buffer needing one row. -/
def sW5b : DriverState := ⟨[], 0, [7], none, true, 0, 0, 0⟩

/-- Witness for C5 discharging each hypothesis at concrete inputs. -/
theorem claimC5_witness :
    dataNeededM cfgW5 (driveM cfgW5 3 (.runGraph true) sW5).1 = 0 ∧
    (driveM ⟨0, 1, false, true, fun _ => true⟩ 3 (.runGraph true) sW5).1.readyCalls =
      sW5.readyCalls ∧
    driveM cfgW5 3 .loadMore sW5b =
      ((driveM cfgW5 2 (.loadNext (dataNeededM cfgW5 sW5b)) (bumpDataNeeded sW5b)).1,
        false) :=
  ⟨(claimC5_ordered_loop cfgW5).1 3 sW5 (by decide),
    (claimC5_ordered_loop ⟨0, 1, false, true, fun _ => true⟩).2.1 3 (.runGraph true) sW5
      rfl,
    (claimC5_ordered_loop cfgW5).2.2.1 2 sW5b (by decide)⟩

end LiveQuery
